import Mathlib

/-
Shallow embedding of the FinanceMaker trading engine core, translated from
the Python sources under src/.  Python floats are modelled as exact
rationals (ℚ); Python ints as ℤ/ℕ; Python sets of strings as duplicate-free
lists built by `setInsert`; exceptions as `Except Unit`.  External effects
(clock, broker, AI advisors, web socket) enter as explicit oracle arguments
recording the outcome each call would have produced.
-/

namespace FinanceMaker

/-! ### Python primitives used by the sources -/

/-- Python `round(x, 2)`: round to the nearest multiple of 1/100 with ties
going to the even multiple (banker's rounding), modelled on exact
rationals. -/
def pyRound2 (q : ℚ) : ℚ :=
  ((if q * 100 - (⌊q * 100⌋ : ℚ) > 1/2 then ⌊q * 100⌋ + 1
    else if q * 100 - (⌊q * 100⌋ : ℚ) < 1/2 then ⌊q * 100⌋
    else if ⌊q * 100⌋ % 2 = 0 then ⌊q * 100⌋ else ⌊q * 100⌋ + 1 : ℤ) : ℚ) / 100

/-- Python `int(x)` on a (here exact-rational) float: truncation toward
zero. -/
def pyInt (q : ℚ) : ℤ := q.num.tdiv (q.den : ℤ)

/-- Code-point comparison of character lists; the order Python uses to
compare strings. -/
def charListLe : List Char → List Char → Bool
  | [], _ => true
  | _ :: _, [] => false
  | c :: cs, d :: ds =>
    if c.toNat < d.toNat then true
    else if d.toNat < c.toNat then false
    else charListLe cs ds

/-- Python `s <= t` on strings: lexicographic by code point. -/
def strLe (a b : String) : Bool := charListLe a.data b.data

/-- Insert a string into a `strLe`-sorted list, keeping it sorted. -/
def insertSorted (x : String) : List String → List String
  | [] => [x]
  | y :: ys => if strLe x y then x :: y :: ys else y :: insertSorted x ys

/-- Python `sorted(xs)` for a collection of strings (insertion sort;
`sorted` is stable and total on strings). -/
def pySorted (l : List String) : List String := l.foldr insertSorted []

/-- Python `set.add`: sets of strings are modelled as duplicate-free lists;
adding an element already present is a no-op. -/
def setInsert (s : List String) (x : String) : List String :=
  if x ∈ s then s else s ++ [x]

/-- Python `set.update(xs)`. -/
def setUpdate (s : List String) (xs : List String) : List String :=
  xs.foldl setInsert s

/-- Python `a.intersection(b)` on string sets. -/
def setInter (a b : List String) : List String :=
  a.filter (fun x => decide (x ∈ b))

/-- Python `str.upper()` (ASCII case folding suffices for tickers). -/
def pyUpper (s : String) : String := ⟨s.data.map Char.toUpper⟩

/-! ### Data model (src/common/models) -/

/-- Period enum from common/models/period.py. -/
inductive Period where
  | SECOND | MINUTE | HOUR | DAILY
deriving DecidableEq, Repr

/-- MarketHours enum from common/models/market_hours.py (values 0–4). -/
inductive MarketHours where
  | PRE_MARKET | REGULAR_MARKET | POST_MARKET
  | EXTENDED_HOURS_MARKET | OVERNIGHT_MARKET
deriving DecidableEq, Repr

/-- Python `MarketHours(n)`: the IntEnum constructor, which raises
`ValueError` (here `none`) for a value outside 0–4. -/
def marketHoursOfNat : ℕ → Option MarketHours
  | 0 => some .PRE_MARKET
  | 1 => some .REGULAR_MARKET
  | 2 => some .POST_MARKET
  | 3 => some .EXTENDED_HOURS_MARKET
  | 4 => some .OVERNIGHT_MARKET
  | _ => none

/-- OrderSide enum from common/models/order.py. -/
inductive OrderSide where
  | BUY | SELL
deriving DecidableEq, Repr

/-- OrderType enum from common/models/order.py. -/
inductive OrderType where
  | MARKET | LIMIT | STOP | STOP_LIMIT
deriving DecidableEq, Repr

/-- OrderStatus enum from common/models/order.py. -/
inductive OrderStatus where
  | PENDING | SUBMITTED | FILLED | PARTIALLY_FILLED
  | CANCELLED | REJECTED | EXPIRED
deriving DecidableEq, Repr

/-- OrderRequest from common/models/order_request.py (the fields the
strategy populates; time_in_force keeps its DAY default). -/
structure OrderRequest where
  ticker : String
  quantity : ℤ
  side : OrderSide
  order_type : OrderType
  limit_price : Option ℚ := none
  stop_price : Option ℚ := none
  stop_loss_price : Option ℚ := none
  take_profit_price : Option ℚ := none
deriving DecidableEq, Repr

/-- OrderResponse from common/models/order_response.py (the fields the
strategy reads after placing an order). -/
structure OrderResponse where
  order_id : String
  status : OrderStatus
deriving DecidableEq, Repr

/-- CandleStick from common/models/candlestick.py.  `open_` stands for the
Python field `open` (a keyword in Lean). -/
structure CandleStick where
  open_ : ℚ
  high : ℚ
  low : ℚ
  close : ℚ
  volume : ℤ
  time : ℚ
  period : Period
deriving DecidableEq, Repr

/-- PricingData from common/models/pricing_data.py, restricted to the
fields the strategy runtime reads (`id`, `price`, `time`, `last_size`);
`time` is a UTC timestamp in seconds. -/
structure PricingData where
  id : String
  price : ℚ
  time : ℚ
  last_size : ℤ
deriving DecidableEq, Repr

/-! ### RealTimeTradingBase (src/strategy/abstracts/realtime_trading_base.py)
and EarningStrategy (src/strategy/earning_strategy/earning_strategy.py)

Both classes mutate one Python object; their fields are combined into one
state record.  `__init__` of the base contributes `tickers`,
`is_initialized`, `building_candles`; `__init__` of EarningStrategy
contributes `warmup_complete`, `orders_placed`, `buying_power_per_ticker`,
`total_tickers`. -/

/-- Number of ticks (seconds) per candle: `RealTimeTradingBase.CANDLE_TICKS`. -/
def CANDLE_TICKS : ℚ := 1

/-- Strategy constants from earning_strategy.py. -/
def ENTRY_OFFSET_PCT : ℚ := 1/100

def STOP_LOSS_PCT : ℚ := 4/100

def TAKE_PROFIT_PCT : ℚ := 8/100

def MIN_QUANTITY : ℤ := 1

/-- The in-progress candle dictionary entry built by `_create_candle_state`. -/
structure CandleState where
  open_ : ℚ
  high : ℚ
  low : ℚ
  close : ℚ
  volume : ℤ
  start_time : ℚ
deriving DecidableEq, Repr

/-- Combined mutable state of an EarningStrategy instance. -/
structure EarningStrategyState where
  tickers : List String
  is_initialized : Bool
  building_candles : List (String × CandleState)
  warmup_complete : Bool
  orders_placed : List String
  buying_power_per_ticker : ℚ
  total_tickers : ℕ
deriving DecidableEq, Repr

/-- State of a freshly constructed EarningStrategy (`__init__` of the base
class and of EarningStrategy). -/
def strategyInit : EarningStrategyState :=
  { tickers := []
    is_initialized := false
    building_candles := []
    warmup_complete := false
    orders_placed := []
    buying_power_per_ticker := 0
    total_tickers := 0 }

/-- Dictionary lookup `self._building_candles[ticker]`. -/
def lookupCandle (l : List (String × CandleState)) (k : String) : Option CandleState :=
  (l.find? (fun p => p.1 == k)).map (·.2)

/-- Dictionary assignment `self._building_candles[ticker] = st`. -/
def setCandle (l : List (String × CandleState)) (k : String) (st : CandleState) :
    List (String × CandleState) :=
  if (l.find? (fun p => p.1 == k)).isSome then
    l.map (fun p => if p.1 == k then (k, st) else p)
  else l ++ [(k, st)]

/-- `RealTimeTradingBase._create_candle_state`. -/
def create_candle_state (d : PricingData) : CandleState :=
  { open_ := d.price
    high := d.price
    low := d.price
    close := d.price
    volume := d.last_size
    start_time := d.time }

/-- `RealTimeTradingBase._update_candle_state`. -/
def update_candle_state (st : CandleState) (d : PricingData) : CandleState :=
  { st with
    high := max st.high d.price
    low := min st.low d.price
    close := d.price
    volume := st.volume + d.last_size }

/-- `RealTimeTradingBase._finalize_candle`. -/
def finalize_candle (st : CandleState) : CandleStick :=
  { open_ := st.open_
    high := st.high
    low := st.low
    close := st.close
    volume := st.volume
    time := st.start_time
    period := .MINUTE }

/-- `RealTimeTradingBase.on_tick`: accumulate a tick into the per-symbol
candle dictionary; when the period has elapsed, emit the closed candle
(returned here, dispatched to the abstract `on_candle` in the source) and
reseed from the current tick. -/
def on_tick (s : EarningStrategyState) (d : PricingData) :
    EarningStrategyState × Option (String × CandleStick) :=
  let ticker := pyUpper d.id
  match lookupCandle s.building_candles ticker with
  | none =>
    ({ s with building_candles := setCandle s.building_candles ticker (create_candle_state d) }, none)
  | some st =>
    let elapsed := d.time - st.start_time
    if elapsed ≥ CANDLE_TICKS then
      let candle := finalize_candle st
      ({ s with building_candles := setCandle s.building_candles ticker (create_candle_state d) },
        some (ticker, candle))
    else
      ({ s with building_candles := setCandle s.building_candles ticker (update_candle_state st d) },
        none)

/-- Run `on_tick` over a stream of ticks, collecting the closed candles it
emits. -/
def run_ticks (s : EarningStrategyState) :
    List PricingData → EarningStrategyState × List (String × CandleStick)
  | [] => (s, [])
  | d :: ds =>
    match on_tick s d with
    | (s', none) => run_ticks s' ds
    | (s', some c) =>
      let (s'', cs) := run_ticks s' ds
      (s'', c :: cs)

/-- `RealTimeTradingBase.shutdown`: unsubscribe the current tickers (the
returned list records the unsubscribe call's argument; no call happens if
the list is empty), then clear `tickers` and drop `is_initialized`.  No
other field is touched. -/
def shutdown (s : EarningStrategyState) : EarningStrategyState × List String :=
  let unsubscribed := if s.tickers = [] then [] else s.tickers
  ({ s with tickers := [], is_initialized := false }, unsubscribed)

/-- `EarningStrategy._is_warmup_complete`, with the outcome of the wall
clock comparison `now_ny.time() >= MARKET_WARMUP_TIME` passed in as
`now_past_warmup`.  Returns the updated state and the result. -/
def is_warmup_complete (s : EarningStrategyState) (now_past_warmup : Bool) :
    EarningStrategyState × Bool :=
  if s.warmup_complete then (s, true)
  else if now_past_warmup then ({ s with warmup_complete := true }, true)
  else (s, false)

/-- `EarningStrategy._calculate_quantity`. -/
def calculate_quantity (s : EarningStrategyState) (entry_price : ℚ) : ℤ :=
  if entry_price ≤ 0 then 0
  else pyInt (s.buying_power_per_ticker / entry_price)

/-- What a single `on_candle` call did. -/
inductive CandleOutcome where
  | skipped_warmup
  | skipped_duplicate
  | skipped_quantity
  | order_error
  | order_placed (req : OrderRequest)
deriving DecidableEq, Repr

/-- `EarningStrategy.on_candle`.  `place_order` is the broker oracle: `.ok`
is a call that returned a response, `.error` one that raised (the
exception propagates, so the ticker is not tagged).  The ticker is added
to `orders_placed` after any `place_order` call that returns. -/
def on_candle (s : EarningStrategyState) (ticker : String) (candle : CandleStick)
    (now_past_warmup : Bool) (place_order : OrderRequest → Except Unit OrderResponse) :
    EarningStrategyState × CandleOutcome :=
  match is_warmup_complete s now_past_warmup with
  | (s, false) => (s, .skipped_warmup)
  | (s, true) =>
    if ticker ∈ s.orders_placed then (s, .skipped_duplicate)
    else
      let entry_price := pyRound2 (candle.low * (1 - ENTRY_OFFSET_PCT))
      let stop_loss_price := pyRound2 (entry_price * (1 - STOP_LOSS_PCT))
      let take_profit_price := pyRound2 (entry_price * (1 + TAKE_PROFIT_PCT))
      let quantity := calculate_quantity s entry_price
      if quantity < MIN_QUANTITY then (s, .skipped_quantity)
      else
        let order_request : OrderRequest :=
          { ticker := ticker
            quantity := quantity
            side := .BUY
            order_type := .LIMIT
            limit_price := some entry_price
            stop_loss_price := some stop_loss_price
            take_profit_price := some take_profit_price }
        match place_order order_request with
        | .error _ => (s, .order_error)
        | .ok _ =>
          ({ s with orders_placed := setInsert s.orders_placed ticker }, .order_placed order_request)

/-- The bracket `OrderRequest` that `on_candle` constructs for a candle
(lines 144–178 of earning_strategy.py), with the entry, stop-loss and
take-profit prices and the quantity computed from the candle's low and
the state's per-ticker allocation. -/
def buildOrderRequest (s : EarningStrategyState) (ticker : String)
    (candle : CandleStick) : OrderRequest :=
  { ticker := ticker
    quantity := calculate_quantity s (pyRound2 (candle.low * (1 - ENTRY_OFFSET_PCT)))
    side := .BUY
    order_type := .LIMIT
    limit_price := some (pyRound2 (candle.low * (1 - ENTRY_OFFSET_PCT)))
    stop_loss_price :=
      some (pyRound2 (pyRound2 (candle.low * (1 - ENTRY_OFFSET_PCT)) * (1 - STOP_LOSS_PCT)))
    take_profit_price :=
      some (pyRound2 (pyRound2 (candle.low * (1 - ENTRY_OFFSET_PCT)) * (1 + TAKE_PROFIT_PCT))) }

/-- The closed-candle invariant of spec.md §3/§8:
`low ≤ min(open, close) ≤ max(open, close) ≤ high` and `volume ≥ 0`. -/
def CandleInvariant (c : CandleStick) : Prop :=
  c.low ≤ min c.open_ c.close ∧ max c.open_ c.close ≤ c.high ∧ 0 ≤ c.volume

/-- The same ordering facts for an in-progress candle state. -/
def StateInvariant (st : CandleState) : Prop :=
  st.low ≤ st.open_ ∧ st.low ≤ st.close ∧ st.open_ ≤ st.high ∧ st.close ≤ st.high ∧
    0 ≤ st.volume

/-- One closed candle arriving at the strategy, together with the oracle
outcomes of the environment calls `on_candle` makes while handling it. -/
structure CandleEvent where
  ticker : String
  candle : CandleStick
  now_past_warmup : Bool
  place_order : OrderRequest → Except Unit OrderResponse

/-- Feed a session's stream of closed candles through `on_candle`. -/
def run_candles (s : EarningStrategyState) :
    List CandleEvent → EarningStrategyState × List (String × CandleOutcome)
  | [] => (s, [])
  | e :: es =>
    let (s', o) := on_candle s e.ticker e.candle e.now_past_warmup e.place_order
    let (s'', os) := run_candles s' es
    (s'', (e.ticker, o) :: os)

/-- Whether an outcome is a successfully placed order. -/
def isPlaced : CandleOutcome → Bool
  | .order_placed _ => true
  | _ => false

/-- Number of successful orders for one symbol in a session's outcome
trace. -/
def countPlaced (sym : String) (l : List (String × CandleOutcome)) : ℕ :=
  (l.filter (fun p => p.1 == sym && isPlaced p.2)).length

/-! ### Ticker-selection pipeline
(src/pullers/scanners/ai_scanners/earning_tommrow_ai.py and
`EarningStrategy.load_tickers`/`initialize`) -/

/-- Oracle outcome of one `EarningTomorrowAI.scan` pass.  Errors from the
screener (`_get_earnings_tickers`) and from an advisor
(`_get_ai_suggestions`) are logged and re-raised in the source, so both
propagate out of `scan`; an empty earnings universe short-circuits to `[]`;
otherwise the two advisors' extracted suggestion sets are intersected by
`_find_consensus`. -/
inductive ScanOutcome where
  | screener_error
  | advisor_error
  | empty_universe
  | suggestions (grok gemini : List String)
deriving DecidableEq

/-- `EarningTomorrowAI.scan` for one pass, as a function of the pass's
oracle outcome. -/
def scan : ScanOutcome → Except Unit (List String)
  | .screener_error => .error ()
  | .advisor_error => .error ()
  | .empty_universe => .ok []
  | .suggestions grok gemini => .ok (setInter grok gemini)

/-- The `for pass_num in range(1, scan_passes + 1)` loop of
`EarningStrategy.load_tickers`: run `scan` once per pass, union the pass
results into `combined`; an exception in any pass propagates. -/
def scanAll (combined : List String) : List ScanOutcome → Except Unit (List String)
  | [] => .ok combined
  | p :: ps =>
    match scan p with
    | .error e => .error e
    | .ok r => scanAll (setUpdate combined r) ps

/-- `EarningStrategy.load_tickers`, with one `ScanOutcome` per configured
scan pass (`passes.length = ai_scanner_config.scan_passes`) and the value
`get_buying_power` would return.  On success it yields the updated state
(allocation fields set only when some ticker survived) and the sorted
ticker list. -/
def load_tickers (s : EarningStrategyState) (passes : List ScanOutcome)
    (buying_power : ℚ) : Except Unit (EarningStrategyState × List String) :=
  match scanAll [] passes with
  | .error e => .error e
  | .ok combined =>
    let result := pySorted combined
    let s := { s with total_tickers := result.length }
    let s :=
      if 0 < result.length then
        { s with buying_power_per_ticker := buying_power / (result.length : ℚ) }
      else s
    .ok (s, result)

/-- `RealTimeTradingBase.initialize` as specialised by EarningStrategy's
`load_tickers`.  The returned list is the argument of the `subscribe` call
(empty when no tickers loaded: the source returns early without
subscribing, still setting `is_initialized`).  A `load_tickers` exception
propagates with the state unmodified. -/
def initializeStrategy (s : EarningStrategyState) (passes : List ScanOutcome)
    (buying_power : ℚ) : Except Unit (EarningStrategyState × List String) :=
  match load_tickers s passes buying_power with
  | .error e => .error e
  | .ok (s', result) =>
    let s' := { s' with tickers := result }
    if s'.tickers = [] then .ok ({ s' with is_initialized := true }, [])
    else .ok ({ s' with is_initialized := true }, s'.tickers)

/-- The specification's reading of scan passes (§4.3/§9 of spec.md): run
each advisor `P` times, union each advisor's `P` responses into its set
`S_i`, return the cross-advisor intersection of the `S_i`, sorted.  Stated
from the spec's words to compare against `load_tickers`; it is only
meaningful on passes where both advisors answered. -/
def specSelect (passes : List (List String × List String)) : List String :=
  pySorted (setInter
    (passes.foldl (fun acc p => setUpdate acc p.1) [])
    (passes.foldl (fun acc p => setUpdate acc p.2) []))

/-! ### StrategyRunner (src/scheduler/strategy_runner/strategy_runner.py) -/

/-- `StrategyRunner._start_strategy`: attempt `initialize` up to
`max_retries` times; `attempt i` is the oracle outcome of the i-th call
(0-based).  Returns the initialized strategy state added to `_active`, or
`none` when every attempt raised and the strategy is disabled for the
session. -/
def start_strategyAux {σ : Type} (attempt : ℕ → Except Unit σ) :
    ℕ → ℕ → Option σ
  | 0, _ => none
  | n + 1, i =>
    match attempt i with
    | .ok s => some s
    | .error _ => start_strategyAux attempt n (i + 1)

/-- `StrategyRunner._start_strategy` (entry point). -/
def start_strategy {σ : Type} (max_retries : ℕ) (attempt : ℕ → Except Unit σ) :
    Option σ :=
  start_strategyAux attempt max_retries 0

/-! ### FileTickerCache (src/common/cache/file_ticker_cache.py) -/

/-- A stored cache file, modelled by what `json.load` does with its
contents: a well-formed JSON list of ticker strings, or content on which
`json.load` raises `JSONDecodeError`. -/
inductive CacheFile where
  | wellFormed (tickers : List String)
  | malformed
deriving DecidableEq

/-- `FileTickerCache._load_tickers_impl` for one date: `enabled` is the
`cache.enabled` configuration flag and `file` the entry stored under that
date's path (`none` when the file does not exist).  `json.load` on
malformed content raises, and nothing in the source catches it. -/
def load_tickers_impl (enabled : Bool) (file : Option CacheFile) :
    Except Unit (Option (List String)) :=
  if enabled = false then .ok none
  else
    match file with
    | none => .ok none
    | some (.wellFormed tickers) => .ok (some tickers)
    | some .malformed => .error ()

/-- `TickerCacheBase.load_tickers`: delegates to the implementation. -/
def cache_load_tickers (enabled : Bool) (file : Option CacheFile) :
    Except Unit (Option (List String)) :=
  load_tickers_impl enabled file

/-! ### YahooRealtimeProvider listener
(src/pullers/realtime/yahoo/yahoo_realtime_provider.py) -/

/-- The connection-related fields of a YahooRealtimeProvider. -/
structure YahooState where
  should_reconnect : Bool
  is_connected : Bool
  has_websocket : Bool
  reconnect_count : ℕ
deriving DecidableEq, Repr

/-- Constructor parameters of YahooRealtimeProvider. -/
structure YahooConfig where
  reconnect_delay : ℚ
  max_reconnect_attempts : ℕ
deriving DecidableEq, Repr

/-- Oracle outcome of one `_receive_messages` call on a live socket:
it returned normally (`clean`), raised `websockets.ConnectionClosed`
(`conn_closed`), or raised some other exception (`errored`). -/
inductive RecvOutcome where
  | clean
  | conn_closed
  | errored
deriving DecidableEq, Repr

/-- Oracle outcome of one `websockets.connect` call inside `_connect`. -/
inductive ConnectOutcome where
  | ok
  | failed
deriving DecidableEq, Repr

/-- Observable effects of one `_listen` loop iteration. -/
structure IterEffect where
  error_surfaced : Bool
  slept : Option ℚ
  connect_attempted : Bool
deriving DecidableEq, Repr

/-- An iteration that only checks the loop condition and receives nothing. -/
def noEffect : IterEffect := { error_surfaced := false, slept := none, connect_attempted := false }

/-- Result of one `_listen` iteration: the loop continues with a new state,
or an exception escaped the `except` block and the listener task died. -/
inductive IterResult where
  | normal (s : YahooState) (eff : IterEffect)
  | crashed (eff : IterEffect)
deriving DecidableEq, Repr

/-- The observable effect of an iteration result. -/
def iterEffect : IterResult → IterEffect
  | .normal _ eff => eff
  | .crashed eff => eff

/-- `YahooRealtimeProvider._handle_reconnect`: mark disconnected; stop if
reconnect is disabled; if `reconnect_count` has reached
`max_reconnect_attempts`, log the error ("Max reconnection attempts
reached") and return — `should_reconnect` is left `true`; otherwise sleep
`reconnect_delay * 2 ** reconnect_count`, bump the counter and call
`_reconnect`, whose `_connect` resets the counter on success and raises on
failure (the exception escapes `_listen`'s `except` block). -/
def handle_reconnect (cfg : YahooConfig) (s : YahooState) (conn : ConnectOutcome) :
    IterResult :=
  let s := { s with is_connected := false, has_websocket := false }
  if s.should_reconnect = false then
    .normal s noEffect
  else if cfg.max_reconnect_attempts ≤ s.reconnect_count then
    .normal s { error_surfaced := true, slept := none, connect_attempted := false }
  else
    let delay := cfg.reconnect_delay * 2 ^ s.reconnect_count
    let s := { s with reconnect_count := s.reconnect_count + 1 }
    match conn with
    | .failed => .crashed { error_surfaced := false, slept := some delay, connect_attempted := true }
    | .ok =>
      .normal { s with is_connected := true, has_websocket := true, reconnect_count := 0 }
        { error_surfaced := false, slept := some delay, connect_attempted := true }

/-- One iteration of the `while self._should_reconnect` body of `_listen`:
`_receive_messages` returns immediately when `self._websocket is None`,
otherwise `recv` is its outcome; any exception is handled by
`_handle_reconnect`. -/
def listen_iter (cfg : YahooConfig) (s : YahooState) (recv : RecvOutcome)
    (conn : ConnectOutcome) : IterResult :=
  let r := if s.has_websocket then recv else .clean
  match r with
  | .clean => .normal s noEffect
  | _ => handle_reconnect cfg s conn

/-- Run the `_listen` loop for as many iterations as there are oracle
events (the loop itself has no bound; a longer event list observes more
iterations).  Returns the final state, the effects of the iterations that
ran, and whether the listener task died with an exception. -/
def listen_run (cfg : YahooConfig) (s : YahooState) :
    List (RecvOutcome × ConnectOutcome) → YahooState × List IterEffect × Bool
  | [] => (s, [], false)
  | e :: es =>
    if s.should_reconnect = false then (s, [], false)
    else
      match listen_iter cfg s e.1 e.2 with
      | .crashed eff => (s, [eff], true)
      | .normal s' eff =>
        let (sf, effs, c) := listen_run cfg s' es
        (sf, eff :: effs, c)

/-! ### PricingDataDecoder (src/pullers/realtime/yahoo/pricing_data_decoder.py)

Bytes are lists of naturals below 256.  Python floats appear here as the
values `struct.unpack("<f", ...)` can produce, so a dedicated type carries
the non-finite cases. -/

namespace PricingDataDecoder

/-- A CPython float as produced by decoding an IEEE-754 binary32 value:
finite (exact rational), an infinity, or NaN. -/
inductive PyFloat where
  | finite (q : ℚ)
  | inf
  | neginf
  | nan
deriving DecidableEq, Repr

/-- A parsed protobuf field value: a varint or a byte payload (fixed32,
fixed64 and length-delimited fields are all stored as raw bytes by
`_parse_fields`; the source's defaults `0` and `b""` are `varint 0` and
`bytes []`). -/
inductive FieldValue where
  | varint (n : ℕ)
  | bytes (bs : List ℕ)
deriving DecidableEq, Repr

/-- `PricingDataDecoder._read_varint`, recursing over the bytes not yet
consumed; accumulates 7-bit groups until a byte without the continuation
bit (or the end of the buffer). -/
def read_varintAux : List ℕ → ℕ → ℕ → ℕ → ℕ × ℕ
  | [], result, _, pos => (result, pos)
  | b :: rest, result, shift, pos =>
    let result := result ||| ((b &&& 0x7F) <<< shift)
    let pos := pos + 1
    if b &&& 0x80 = 0 then (result, pos)
    else read_varintAux rest result (shift + 7) pos

/-- `PricingDataDecoder._read_varint` at a buffer position. -/
def read_varint (data : List ℕ) (pos : ℕ) : ℕ × ℕ :=
  read_varintAux (data.drop pos) 0 0 pos

/-- Python `data[pos:pos + n]` (clamped slice). -/
def slice (data : List ℕ) (pos n : ℕ) : List ℕ :=
  (data.drop pos).take n

/-- Dictionary write `fields[field_number] = value` (later writes win). -/
def putField (fields : List (ℕ × FieldValue)) (k : ℕ) (v : FieldValue) :
    List (ℕ × FieldValue) :=
  if (fields.find? (fun p => p.1 == k)).isSome then
    fields.map (fun p => if p.1 == k then (k, v) else p)
  else fields ++ [(k, v)]

/-- Dictionary read `fields.get(k, default)`. -/
def getField (fields : List (ℕ × FieldValue)) (k : ℕ) (default : FieldValue) :
    FieldValue :=
  match fields.find? (fun p => p.1 == k) with
  | some p => p.2
  | none => default

/-- The `while pos < length` loop of `_parse_fields`.  Each iteration reads
a tag varint (consuming at least one byte, so at most `data.length`
iterations ever run; `fuel` is initialized above that bound and never runs
out), then dispatches on the wire type; an unknown wire type breaks out of
the loop. -/
def parse_fieldsAux (data : List ℕ) :
    ℕ → ℕ → List (ℕ × FieldValue) → List (ℕ × FieldValue)
  | 0, _, fields => fields
  | fuel + 1, pos, fields =>
    if pos < data.length then
      let (tag, pos) := read_varint data pos
      let field_number := tag >>> 3
      let wire_type := tag &&& 0x07
      if wire_type = 0 then
        let (value, pos) := read_varint data pos
        parse_fieldsAux data fuel pos (putField fields field_number (.varint value))
      else if wire_type = 1 then
        parse_fieldsAux data fuel (pos + 8) (putField fields field_number (.bytes (slice data pos 8)))
      else if wire_type = 2 then
        let (str_len, pos) := read_varint data pos
        parse_fieldsAux data fuel (pos + str_len)
          (putField fields field_number (.bytes (slice data pos str_len)))
      else if wire_type = 5 then
        parse_fieldsAux data fuel (pos + 4) (putField fields field_number (.bytes (slice data pos 4)))
      else fields
    else fields

/-- `PricingDataDecoder._parse_fields`. -/
def parse_fields (data : List ℕ) : List (ℕ × FieldValue) :=
  parse_fieldsAux data (data.length + 1) 0 []

/-- `PricingDataDecoder._to_int`: ints pass through, anything else is 0. -/
def to_int : FieldValue → ℕ
  | .varint n => n
  | .bytes _ => 0

/-- `PricingDataDecoder._decode_sint64`: zigzag decoding
`(value >> 1) ^ -(value & 1)` on a Python int, written out arithmetically
(`x ^ -1 = -x - 1` on arbitrary-precision ints); non-ints decode to 0. -/
def decode_sint64 : FieldValue → ℤ
  | .varint n => if n % 2 = 0 then ((n / 2 : ℕ) : ℤ) else -((n / 2 : ℕ) : ℤ) - 1
  | .bytes _ => 0

/-- IEEE-754 binary32 value of four little-endian bytes, as
`struct.unpack("<f", ...)` computes it. -/
def unpackF32 (b0 b1 b2 b3 : ℕ) : PyFloat :=
  let bits : ℕ := b0 + 256 * b1 + 65536 * b2 + 16777216 * b3
  let sign : ℕ := bits / 2 ^ 31 % 2
  let expo : ℕ := bits / 2 ^ 23 % 256
  let mant : ℕ := bits % 2 ^ 23
  if expo = 255 then
    if mant = 0 then (if sign = 1 then .neginf else .inf) else .nan
  else
    let mag : ℚ :=
      if expo = 0 then (mant : ℚ) / 2 ^ 149
      else ((2 ^ 23 + mant : ℕ) : ℚ) * 2 ^ expo / 2 ^ 150
    .finite (if sign = 1 then -mag else mag)

/-- `PricingDataDecoder._decode_float`: exactly four bytes decode as a
little-endian binary32, everything else is 0.0. -/
def decode_float : FieldValue → PyFloat
  | .bytes [b0, b1, b2, b3] => unpackF32 b0 b1 b2 b3
  | _ => .finite 0

/-- The replacement character U+FFFD. -/
def FFFD : ℕ := 0xFFFD

/-- Whether a byte is a UTF-8 continuation byte in the range the lead byte
`lead` allows at continuation index `i` (0-based): the first continuation
of E0/ED/F0/F4 has a restricted range, every other one is 80–BF. -/
def contOk (lead : ℕ) (i : ℕ) (b : ℕ) : Bool :=
  if i = 0 ∧ lead = 0xE0 then 0xA0 ≤ b ∧ b ≤ 0xBF
  else if i = 0 ∧ lead = 0xED then 0x80 ≤ b ∧ b ≤ 0x9F
  else if i = 0 ∧ lead = 0xF0 then 0x90 ≤ b ∧ b ≤ 0xBF
  else if i = 0 ∧ lead = 0xF4 then 0x80 ≤ b ∧ b ≤ 0x8F
  else 0x80 ≤ b ∧ b ≤ 0xBF

/-- How many continuation bytes a lead byte demands; `none` marks a byte
that cannot start a sequence (continuation bytes, C0/C1, F5–FF). -/
def leadLen (b : ℕ) : Option ℕ :=
  if b ≤ 0x7F then some 0
  else if 0xC2 ≤ b ∧ b ≤ 0xDF then some 1
  else if 0xE0 ≤ b ∧ b ≤ 0xEF then some 2
  else if 0xF0 ≤ b ∧ b ≤ 0xF4 then some 3
  else none

/-- Take up to `need` valid continuation bytes for `lead` from the front of
the list; returns the bytes taken and the rest. -/
def takeCont (lead : ℕ) : ℕ → ℕ → List ℕ → List ℕ × List ℕ
  | _, 0, rest => ([], rest)
  | _, _ + 1, [] => ([], [])
  | i, need + 1, b :: rest =>
    if contOk lead i b then
      let (taken, rem) := takeCont lead (i + 1) need rest
      (b :: taken, rem)
    else ([], b :: rest)

/-- Code point assembled from a lead byte and its continuation bytes. -/
def assemble (lead : ℕ) (conts : List ℕ) : ℕ :=
  conts.foldl (fun acc b => acc * 64 + (b - 0x80))
    (lead - (if lead ≤ 0x7F then 0 else if lead ≤ 0xDF then 0xC0 else if lead ≤ 0xEF then 0xE0 else 0xF0))

/-- CPython `bytes.decode("utf-8", errors="replace")`, producing the code
points of the result: well-formed sequences decode to their code point;
a maximal invalid subpart (a bad lead byte, or a lead byte with its valid
but incomplete run of continuations) becomes one U+FFFD.  Structured as a
fuel recursion on the byte count (each step consumes at least one byte, so
the fuel never runs out). -/
def utf8DecodeAux : ℕ → List ℕ → List ℕ
  | 0, _ => []
  | _, [] => []
  | fuel + 1, b :: rest =>
    match leadLen b with
    | none => FFFD :: utf8DecodeAux fuel rest
    | some 0 => b :: utf8DecodeAux fuel rest
    | some need =>
      let (taken, rem) := takeCont b 0 need rest
      if taken.length = need then assemble b taken :: utf8DecodeAux fuel rem
      else FFFD :: utf8DecodeAux fuel rem

/-- CPython `bytes.decode("utf-8", errors="replace")` on a byte string. -/
def utf8DecodeReplace (bs : List ℕ) : List ℕ :=
  utf8DecodeAux (bs.length + 1) bs

/-- `PricingDataDecoder._decode_string`: bytes decode as UTF-8 with
replacement, non-bytes decode to the empty string. -/
def decode_string : FieldValue → List ℕ
  | .bytes bs => utf8DecodeReplace bs
  | .varint _ => []

/-- Whether `datetime.fromtimestamp(time_ms / 1000.0, tz=timezone.utc)`
succeeds: the instant must lie between `datetime.min` (year 1) and
`datetime.max` (year 9999); outside, CPython raises.  The boundary is
modelled on exact milliseconds. -/
def fromtimestampOk (time_ms : ℤ) : Bool :=
  -62135596800000 ≤ time_ms ∧ time_ms ≤ 253402300799999

/-- The decoded message.  String fields carry the decoded code points,
float fields the `struct.unpack` results, and `time_ms` the millisecond
timestamp fed to `datetime.fromtimestamp`. -/
structure PricingData where
  id : List ℕ
  price : PyFloat
  time_ms : ℤ
  currency : List ℕ
  exchange : List ℕ
  market_hours : FinanceMaker.MarketHours
  change : PyFloat
  change_percent : PyFloat
  day_volume : ℤ
  day_high : PyFloat
  day_low : PyFloat
  open_price : PyFloat
  previous_close : PyFloat
  bid : PyFloat
  bid_size : ℤ
  ask : PyFloat
  ask_size : ℤ
  last_size : ℤ
  short_name : List ℕ
deriving DecidableEq, Repr

/-- `PricingDataDecoder.decode`.  The two statements in the source that can
raise are `datetime.fromtimestamp` (timestamp out of `datetime`'s range)
and the `MarketHours(...)` enum constructor (`ValueError` on a value
outside 0–4); every other field decode is total. -/
def decode (data : List ℕ) : Except Unit PricingData :=
  let fields := parse_fields data
  let time_ms := decode_sint64 (getField fields 3 (.varint 0))
  if fromtimestampOk time_ms = false then .error ()
  else
    match FinanceMaker.marketHoursOfNat (to_int (getField fields 7 (.varint 1))) with
    | none => .error ()
    | some mh =>
      .ok
        { id := decode_string (getField fields 1 (.bytes []))
          price := decode_float (getField fields 2 (.bytes []))
          time_ms := time_ms
          currency := decode_string (getField fields 4 (.bytes []))
          exchange := decode_string (getField fields 5 (.bytes []))
          market_hours := mh
          change := decode_float (getField fields 12 (.bytes []))
          change_percent := decode_float (getField fields 8 (.bytes []))
          day_volume := decode_sint64 (getField fields 9 (.varint 0))
          day_high := decode_float (getField fields 10 (.bytes []))
          day_low := decode_float (getField fields 11 (.bytes []))
          open_price := decode_float (getField fields 15 (.bytes []))
          previous_close := decode_float (getField fields 16 (.bytes []))
          bid := decode_float (getField fields 23 (.bytes []))
          bid_size := decode_sint64 (getField fields 24 (.varint 0))
          ask := decode_float (getField fields 25 (.bytes []))
          ask_size := decode_sint64 (getField fields 26 (.varint 0))
          last_size := decode_sint64 (getField fields 22 (.varint 0))
          short_name := decode_string (getField fields 13 (.bytes [])) }

/-- The millisecond timestamp `decode` extracts from a payload. -/
def decodeTimeMs (data : List ℕ) : ℤ :=
  decode_sint64 (getField (parse_fields data) 3 (.varint 0))

/-- The raw session-phase integer `decode` passes to `MarketHours`. -/
def decodePhaseInt (data : List ℕ) : ℕ :=
  to_int (getField (parse_fields data) 7 (.varint 1))

end PricingDataDecoder

/-! ## Helper lemmas -/

theorem pyInt_eq_floor (q : ℚ) (h : 0 ≤ q) : pyInt q = ⌊q⌋ := by
  rw [Rat.floor_def, pyInt]
  exact Int.tdiv_eq_ediv (Rat.num_nonneg.mpr h) (Int.ofNat_nonneg _)

theorem charListLe_total (as bs : List Char) :
    charListLe as bs = true ∨ charListLe bs as = true := by
  induction as generalizing bs with
  | nil => exact .inl rfl
  | cons c cs ih =>
    cases bs with
    | nil => exact .inr rfl
    | cons d ds =>
      rcases Nat.lt_trichotomy c.toNat d.toNat with h | h | h
      · exact .inl (by simp [charListLe, h])
      · rcases ih ds with h' | h' <;>
          simp [charListLe, h, h', Nat.lt_irrefl]
      · exact .inr (by simp [charListLe, h])

theorem charListLe_trans (as bs cs : List Char)
    (h1 : charListLe as bs = true) (h2 : charListLe bs cs = true) :
    charListLe as cs = true := by
  induction as generalizing bs cs with
  | nil => rfl
  | cons a as' ih =>
    cases bs with
    | nil => simp [charListLe] at h1
    | cons b bs' =>
      cases cs with
      | nil => simp [charListLe] at h2
      | cons c cs' =>
        rcases Nat.lt_trichotomy a.toNat b.toNat with hab | hab | hab <;>
          rcases Nat.lt_trichotomy b.toNat c.toNat with hbc | hbc | hbc <;>
          simp_all [charListLe, Nat.lt_irrefl] <;>
          first
          | (simp [Nat.lt_trans hab hbc, charListLe])
          | (simp [hab ▸ hbc, charListLe])
          | (simp [hbc ▸ hab, charListLe])
          | (exact ih bs' cs' h1 h2)
          | omega

theorem strLe_total (a b : String) : strLe a b = true ∨ strLe b a = true :=
  charListLe_total a.data b.data

theorem strLe_trans (a b c : String) (h1 : strLe a b = true)
    (h2 : strLe b c = true) : strLe a c = true :=
  charListLe_trans a.data b.data c.data h1 h2

theorem mem_insertSorted (x y : String) (l : List String) :
    x ∈ insertSorted y l ↔ x = y ∨ x ∈ l := by
  induction l with
  | nil => simp [insertSorted]
  | cons z zs ih =>
    by_cases h : strLe y z = true
    · simp [insertSorted, h]
    · simp [insertSorted, h, ih]
      tauto

theorem pairwise_insertSorted (y : String) (l : List String)
    (h : l.Pairwise (fun a b => strLe a b = true)) :
    (insertSorted y l).Pairwise (fun a b => strLe a b = true) := by
  induction l with
  | nil => simp [insertSorted]
  | cons z zs ih =>
    rcases h with - | ⟨hz, hzs⟩
    by_cases hyz : strLe y z = true
    · rw [insertSorted, if_pos hyz]
      refine List.Pairwise.cons ?_ (List.Pairwise.cons hz hzs)
      intro b hb
      rcases List.mem_cons.mp hb with rfl | hb
      · exact hyz
      · exact strLe_trans _ _ _ hyz (hz b hb)
    · rw [insertSorted, if_neg hyz]
      refine List.Pairwise.cons ?_ (ih hzs)
      intro b hb
      rcases (mem_insertSorted b y zs).mp hb with rfl | hb
      · rcases strLe_total b z with h' | h'
        · exact absurd h' hyz
        · exact h'
      · exact hz b hb

theorem mem_pySorted (x : String) (l : List String) :
    x ∈ pySorted l ↔ x ∈ l := by
  induction l with
  | nil => simp [pySorted]
  | cons y ys ih =>
    simp only [pySorted, List.foldr] at *
    rw [mem_insertSorted, ih]
    simp

theorem pairwise_pySorted (l : List String) :
    (pySorted l).Pairwise (fun a b => strLe a b = true) := by
  induction l with
  | nil => simp [pySorted]
  | cons y ys ih => exact pairwise_insertSorted y _ ih

theorem mem_setInsert (x y : String) (s : List String) :
    x ∈ setInsert s y ↔ x = y ∨ x ∈ s := by
  by_cases h : y ∈ s
  · simp only [setInsert, if_pos h]
    constructor
    · tauto
    · rintro (rfl | h') <;> tauto
  · simp only [setInsert, if_neg h, List.mem_append, List.mem_singleton]
    tauto

theorem mem_setUpdate (x : String) (s xs : List String) :
    x ∈ setUpdate s xs ↔ x ∈ s ∨ x ∈ xs := by
  induction xs generalizing s with
  | nil => simp [setUpdate]
  | cons y ys ih =>
    simp only [setUpdate, List.foldl] at *
    rw [ih, mem_setInsert]
    simp
    tauto

theorem mem_setInter (x : String) (a b : List String) :
    x ∈ setInter a b ↔ x ∈ a ∧ x ∈ b := by
  simp [setInter]

/-! ## C5 — shutdown postcondition -/

/-- C5 counterexample: after `shutdown` on a state with an in-progress
candle builder and a tagged symbol, the builders are NOT dropped and the
already-ordered set is NOT cleared, contradicting the claim that both are
reset. -/
theorem C5_counterexample :
    ¬ (((shutdown (⟨["AAPL"], true, [("AAPL", ⟨1, 1, 1, 1, 1, 0⟩)], true, ["AAPL"], 1, 1⟩ :
            EarningStrategyState)).1.building_candles = []) ∧
        ((shutdown (⟨["AAPL"], true, [("AAPL", ⟨1, 1, 1, 1, 1, 0⟩)], true, ["AAPL"], 1, 1⟩ :
            EarningStrategyState)).1.orders_placed = [])) := by
  decide

/-- C5 amended: `shutdown` unsubscribes the current tickers, clears the
ticker list and drops `is_initialized`, but leaves the per-symbol candle
builders, the already-ordered set, the warm-up flag and the buying-power
allocation untouched, so they carry over into a subsequent initialize. -/
theorem C5_shutdown_amended (s : EarningStrategyState) :
    (shutdown s).1.tickers = [] ∧
    (shutdown s).1.is_initialized = false ∧
    (shutdown s).1.building_candles = s.building_candles ∧
    (shutdown s).1.orders_placed = s.orders_placed ∧
    (shutdown s).1.warmup_complete = s.warmup_complete ∧
    (shutdown s).1.buying_power_per_ticker = s.buying_power_per_ticker ∧
    (shutdown s).2 = (if s.tickers = [] then [] else s.tickers) := by
  simp [shutdown]

/-! ## C7 — cache load totality -/

/-- C7 counterexample: with the cache enabled and the date's file present
but malformed, `load` raises (`json.load`'s error propagates) instead of
returning the empty result. -/
theorem C7_counterexample :
    cache_load_tickers true (some .malformed) = Except.error () := rfl

/-- C7 amended: `load` returns `None` when the cache is configured off or
the entry is absent, and the stored list when the entry is well-formed;
but on a present malformed entry it raises rather than returning empty. -/
theorem C7_load_amended (enabled : Bool) (file : Option CacheFile) :
    (enabled = false → cache_load_tickers enabled file = .ok none) ∧
    (file = none → cache_load_tickers enabled file = .ok none) ∧
    (∀ l, enabled = true → file = some (.wellFormed l) →
      cache_load_tickers enabled file = .ok (some l)) ∧
    (enabled = true → file = some .malformed →
      cache_load_tickers enabled file = .error ()) := by
  cases enabled <;> rcases file with _ | (_ | _) <;>
    refine ⟨?_, ?_, ?_, ?_⟩ <;> intros <;>
    simp_all [cache_load_tickers, load_tickers_impl]

/-- Concrete instances of the four amended cache-load behaviors. -/
theorem C7_load_amended_witness :
    cache_load_tickers false (some .malformed) = .ok none ∧
    cache_load_tickers true none = .ok none ∧
    cache_load_tickers true (some (.wellFormed ["AAPL"])) = .ok (some ["AAPL"]) ∧
    cache_load_tickers true (some .malformed) = .error () :=
  ⟨(C7_load_amended false (some .malformed)).1 rfl,
   (C7_load_amended true none).2.1 rfl,
   (C7_load_amended true (some (.wellFormed ["AAPL"]))).2.2.1 _ rfl rfl,
   (C7_load_amended true (some .malformed)).2.2.2 rfl rfl⟩

/-! ## C6 — screener failure containment -/

theorem scanAll_error (combined : List String) (passes : List ScanOutcome)
    (h : ScanOutcome.screener_error ∈ passes) :
    scanAll combined passes = .error () := by
  induction passes generalizing combined with
  | nil => cases h
  | cons p ps ih =>
    rcases List.mem_cons.mp h with rfl | h'
    · rfl
    · cases p
      · rfl
      · rfl
      · exact ih _ h'
      · exact ih _ h'

theorem start_strategyAux_all_failed {σ : Type} (n i : ℕ) :
    start_strategyAux (fun _ => (Except.error () : Except Unit σ)) n i = none := by
  induction n generalizing i with
  | zero => rfl
  | succ n ih => exact ih (i + 1)

theorem start_strategy_all_failed {σ : Type} (R : ℕ) :
    start_strategy R (fun _ => (Except.error () : Except Unit σ)) = none :=
  start_strategyAux_all_failed R 0

/-- C6 counterexample: when the screener raises during selection, the
strategy does NOT complete `initialize()` with an empty watch list — the
error propagates out of `initialize` (the scanner logs and re-raises, and
nothing on the path catches it). -/
theorem C6_counterexample :
    initializeStrategy strategyInit [ScanOutcome.screener_error] 1000 =
      Except.error () := rfl

/-- C6 amended: a screener error during any scan pass propagates out of
`initialize`; the StrategyRunner catches each failed attempt, retries up
to `max_retries`, then leaves the strategy out of its active list
(disabled for the session), so no orders are placed — but the strategy
never initializes, with or without a watch list. -/
theorem C6_screener_error_amended (s : EarningStrategyState)
    (passes : List ScanOutcome) (buying_power : ℚ) (R : ℕ)
    (h : ScanOutcome.screener_error ∈ passes) :
    initializeStrategy s passes buying_power = .error () ∧
    start_strategy R (fun _ => (Except.error () : Except Unit EarningStrategyState)) = none := by
  refine ⟨?_, start_strategy_all_failed R⟩
  unfold initializeStrategy load_tickers
  rw [scanAll_error [] passes h]

/-- Concrete instance: one screener-failing pass makes `initialize` raise
and a three-retry runner disable the strategy. -/
theorem C6_screener_error_witness :
    initializeStrategy strategyInit [ScanOutcome.screener_error] 1000 = .error () ∧
    start_strategy 3 (fun _ => (Except.error () : Except Unit EarningStrategyState)) = none :=
  C6_screener_error_amended strategyInit [ScanOutcome.screener_error] 1000 3 (by simp)

/-! ## C8 — backoff exhaustion -/

theorem listen_run_idle (cfg : YahooConfig) (s : YahooState)
    (events : List (RecvOutcome × ConnectOutcome))
    (h1 : s.should_reconnect = true) (h2 : s.has_websocket = false) :
    listen_run cfg s events = (s, List.replicate events.length noEffect, false) := by
  induction events with
  | nil => rfl
  | cons e es ih =>
    simp only [listen_run, h1, Bool.true_eq_false, if_false, listen_iter, h2,
      Bool.false_eq_true, if_false, ih, List.length_cons, List.replicate_succ]

/-- C8 counterexample: with `max_reconnect_attempts` exhausted at the
first disconnect, the listener surfaces the error once but the loop is
NOT terminal: `_should_reconnect` stays true and two further iterations
run (idly), contradicting "enters a terminal disconnected state, and its
listener loop performs no further reconnect attempts or iterations". -/
theorem C8_counterexample :
    listen_run ⟨1, 0⟩ ⟨true, true, true, 0⟩
        [(.errored, .ok), (.clean, .ok), (.errored, .ok)] =
      (⟨true, false, false, 0⟩,
        [⟨true, none, false⟩, noEffect, noEffect], false) := rfl

/-- C8 amended: a reconnect attempt `n` sleeps `reconnect_delay * 2 ^ n`;
and once `reconnect_count` has reached `max_reconnect_attempts`, a
disconnect surfaces the error exactly once and no reconnect is ever
attempted again — but the loop does not terminate: `should_reconnect`
remains true and each further event is consumed by an idle iteration
(the socket is gone, so `_receive_messages` returns immediately). -/
theorem C8_backoff_amended :
    (∀ (cfg : YahooConfig) (s : YahooState) (conn : ConnectOutcome),
      s.should_reconnect = true → s.reconnect_count < cfg.max_reconnect_attempts →
      iterEffect (handle_reconnect cfg s conn) =
        { error_surfaced := false,
          slept := some (cfg.reconnect_delay * 2 ^ s.reconnect_count),
          connect_attempted := true }) ∧
    (∀ (cfg : YahooConfig) (s : YahooState) (recv : RecvOutcome)
        (conn : ConnectOutcome) (events : List (RecvOutcome × ConnectOutcome)),
      s.should_reconnect = true → s.has_websocket = true →
      cfg.max_reconnect_attempts ≤ s.reconnect_count → recv ≠ .clean →
      listen_run cfg s ((recv, conn) :: events) =
        ({ s with is_connected := false, has_websocket := false },
          { error_surfaced := true, slept := none, connect_attempted := false } ::
            List.replicate events.length noEffect,
          false)) := by
  constructor
  · intro cfg s conn h1 h2
    rw [handle_reconnect]
    simp only [h1, Bool.true_eq_false, if_false, Nat.not_le.mpr h2, ite_false,
      if_neg (Nat.not_le.mpr h2)]
    cases conn <;> rfl
  · intro cfg s recv conn events h1 h2 h3 h4
    have hiter : listen_iter cfg s recv conn =
        .normal { s with is_connected := false, has_websocket := false }
          { error_surfaced := true, slept := none, connect_attempted := false } := by
      rw [listen_iter]
      cases recv with
      | clean => exact absurd rfl h4
      | conn_closed =>
        simp only [h2, if_true]
        rw [handle_reconnect]
        simp [h1, h3]
      | errored =>
        simp only [h2, if_true]
        rw [handle_reconnect]
        simp [h1, h3]
    simp only [listen_run, h1, Bool.true_eq_false, if_false, hiter]
    rw [listen_run_idle cfg ⟨true, false, false, s.reconnect_count⟩ events rfl rfl]

/-- Concrete instances of the amended backoff behavior: attempt 3 sleeps
`1 * 2 ^ 3 = 8`; an exhausted provider surfaces the error once and then
idles through the remaining event without attempting to reconnect. -/
theorem C8_backoff_amended_witness :
    iterEffect (handle_reconnect ⟨1, 5⟩ ⟨true, false, false, 3⟩ .ok) =
      { error_surfaced := false, slept := some 8, connect_attempted := true } ∧
    listen_run ⟨1, 5⟩ ⟨true, true, true, 5⟩ [(.errored, .failed), (.clean, .ok)] =
      (⟨true, false, false, 5⟩, [⟨true, none, false⟩, noEffect], false) := by
  constructor
  · have h := C8_backoff_amended.1 ⟨1, 5⟩ ⟨true, false, false, 3⟩ .ok rfl (by norm_num)
    rw [h]
    norm_num
  · have h := C8_backoff_amended.2 ⟨1, 5⟩ ⟨true, true, true, 5⟩ .errored .failed
      [(.clean, .ok)] rfl rfl (by norm_num) (by simp)
    rw [h]
    rfl

/-! ## C3 — scan-pass semantics of selection -/

theorem scanAll_suggestions (acc : List String)
    (passes : List (List String × List String)) :
    scanAll acc (passes.map fun p => ScanOutcome.suggestions p.1 p.2) =
      .ok (passes.foldl (fun acc p => setUpdate acc (setInter p.1 p.2)) acc) := by
  induction passes generalizing acc with
  | nil => rfl
  | cons p ps ih => exact ih _

theorem mem_foldl_inter (x : String) (acc : List String)
    (passes : List (List String × List String)) :
    x ∈ passes.foldl (fun acc p => setUpdate acc (setInter p.1 p.2)) acc ↔
      x ∈ acc ∨ ∃ p ∈ passes, x ∈ p.1 ∧ x ∈ p.2 := by
  induction passes generalizing acc with
  | nil => simp
  | cons p ps ih =>
    simp only [List.foldl, List.mem_cons]
    rw [ih, mem_setUpdate, mem_setInter]
    constructor
    · rintro ((h | h) | h)
      · exact .inl h
      · exact .inr ⟨p, .inl rfl, h⟩
      · rcases h with ⟨q, hq, hx⟩
        exact .inr ⟨q, .inr hq, hx⟩
    · rintro (h | ⟨q, rfl | hq, hx⟩)
      · exact .inl (.inl h)
      · exact .inl (.inr hx)
      · exact .inr ⟨q, hq, hx⟩

/-- C3 counterexample: with two passes where advisor 1 answers only in
pass 1 and advisor 2 only in pass 2, the code (per-pass cross-advisor
intersection, unioned over passes) selects nothing, while the claim's
semantics (per-advisor union over passes, then cross-advisor
intersection) selects `["A"]`. -/
theorem C3_counterexample :
    load_tickers strategyInit
        [.suggestions ["A"] [], .suggestions [] ["A"]] 1000 =
      .ok (strategyInit, []) ∧
    specSelect [(["A"], []), ([], ["A"])] = ["A"] := ⟨rfl, rfl⟩

/-- C3 amended: each scan pass queries every advisor once and intersects
across advisors; the per-pass intersections are unioned over the passes
and the result is sorted — a symbol is selected iff both advisors
suggested it in the SAME pass (union of intersections, not intersection
of unions). -/
theorem C3_scan_passes_amended (s : EarningStrategyState)
    (passes : List (List String × List String)) (buying_power : ℚ)
    (s' : EarningStrategyState) (result : List String)
    (h : load_tickers s (passes.map fun p => ScanOutcome.suggestions p.1 p.2)
      buying_power = .ok (s', result)) :
    (∀ x, x ∈ result ↔ ∃ p ∈ passes, x ∈ p.1 ∧ x ∈ p.2) ∧
    result.Pairwise (fun a b => strLe a b = true) := by
  have hres :
      result = pySorted (passes.foldl (fun acc p => setUpdate acc (setInter p.1 p.2)) []) := by
    unfold load_tickers at h
    rw [scanAll_suggestions] at h
    simp only [Except.ok.injEq, Prod.mk.injEq] at h
    exact h.2.symm
  subst hres
  refine ⟨fun x => ?_, pairwise_pySorted _⟩
  rw [mem_pySorted, mem_foldl_inter]
  simp

/-- Concrete instance: one pass where the advisors suggest
`{MSFT, AAPL, GOOG}` and `{AAPL, MSFT, NVDA}` selects exactly the sorted
consensus `[AAPL, MSFT]`. -/
theorem C3_scan_passes_amended_witness :
    (∀ x, x ∈ (["AAPL", "MSFT"] : List String) ↔
      ∃ p ∈ [((["MSFT", "AAPL", "GOOG"], ["AAPL", "MSFT", "NVDA"]) :
          List String × List String)], x ∈ p.1 ∧ x ∈ p.2) ∧
    (["AAPL", "MSFT"] : List String).Pairwise (fun a b => strLe a b = true) :=
  C3_scan_passes_amended strategyInit
    [(["MSFT", "AAPL", "GOOG"], ["AAPL", "MSFT", "NVDA"])] 1000
    (⟨[], false, [], false, [], 1000 / ((2 : ℕ) : ℚ), 2⟩ : EarningStrategyState)
    ["AAPL", "MSFT"] rfl

/-! ## C9 — decoder totality and defaults -/

theorem marketHoursOfNat_isSome (n : ℕ) :
    (marketHoursOfNat n).isSome = true ↔ n ≤ 4 := by
  rcases n with _ | _ | _ | _ | _ | m <;> simp [marketHoursOfNat]

/-- C9 counterexample: the two-byte payload `[0x38, 0x05]` encodes
session-phase field 7 as varint 5, outside the `MarketHours` enumeration;
`decode` raises `ValueError` instead of clamping to `REG`. -/
theorem C9_counterexample :
    PricingDataDecoder.decode [0x38, 0x05] = Except.error () := rfl

/-- C9 amended: `decode` returns a tick exactly when the decoded
timestamp is within `datetime`'s range and the session-phase value is
within the enumeration (a varint above 4 raises, with no clamping to
`REG`); for the empty payload every numeric field decodes to zero, every
string to the empty string, and the absent session phase defaults to
`REG`; string fields decode as UTF-8 with replacement and a non-bytes
value yields the empty string; a float field with no 4-byte payload
decodes to 0.0. -/
theorem C9_decode_amended :
    (∀ data : List ℕ, (PricingDataDecoder.decode data).isOk = true ↔
      (PricingDataDecoder.fromtimestampOk (PricingDataDecoder.decodeTimeMs data) = true ∧
        PricingDataDecoder.decodePhaseInt data ≤ 4)) ∧
    PricingDataDecoder.decode [] =
      .ok { id := [], price := .finite 0, time_ms := 0, currency := [], exchange := [],
            market_hours := .REGULAR_MARKET, change := .finite 0,
            change_percent := .finite 0, day_volume := 0, day_high := .finite 0,
            day_low := .finite 0, open_price := .finite 0, previous_close := .finite 0,
            bid := .finite 0, bid_size := 0, ask := .finite 0, ask_size := 0,
            last_size := 0, short_name := [] } ∧
    (∀ bs, PricingDataDecoder.decode_string (.bytes bs) =
      PricingDataDecoder.utf8DecodeReplace bs) ∧
    (∀ n, PricingDataDecoder.decode_string (.varint n) = []) ∧
    PricingDataDecoder.decode_float (.bytes []) = .finite 0 := by
  refine ⟨?_, rfl, fun bs => rfl, fun n => rfl, rfl⟩
  intro data
  simp only [PricingDataDecoder.decode, PricingDataDecoder.decodeTimeMs,
    PricingDataDecoder.decodePhaseInt]
  cases hts : PricingDataDecoder.fromtimestampOk
      (PricingDataDecoder.decode_sint64
        (PricingDataDecoder.getField (PricingDataDecoder.parse_fields data) 3
          (.varint 0))) with
  | false => simp [hts, Except.isOk, Except.toBool]
  | true =>
    simp only [hts, Bool.true_eq_false, if_false]
    cases hmh : marketHoursOfNat
        (PricingDataDecoder.to_int
          (PricingDataDecoder.getField (PricingDataDecoder.parse_fields data) 7
            (.varint 1))) with
    | none =>
      have := (marketHoursOfNat_isSome
        (PricingDataDecoder.to_int
          (PricingDataDecoder.getField (PricingDataDecoder.parse_fields data) 7
            (.varint 1))))
      rw [hmh] at this
      simp only [Option.isSome_none, Bool.false_eq_true, false_iff, not_le] at this
      simp [Except.isOk, Except.toBool]
      omega
    | some mh =>
      have := (marketHoursOfNat_isSome
        (PricingDataDecoder.to_int
          (PricingDataDecoder.getField (PricingDataDecoder.parse_fields data) 7
            (.varint 1))))
      rw [hmh] at this
      simp only [Option.isSome_some, true_iff] at this
      simp [Except.isOk, Except.toBool, this]

/-! ## C1 — one order per symbol -/

theorem is_warmup_complete_fields (s : EarningStrategyState) (w : Bool) :
    (is_warmup_complete s w).1.orders_placed = s.orders_placed ∧
    (is_warmup_complete s w).1.buying_power_per_ticker = s.buying_power_per_ticker := by
  rw [is_warmup_complete]
  split_ifs <;> exact ⟨rfl, rfl⟩

theorem on_candle_orders (s : EarningStrategyState) (t : String) (c : CandleStick)
    (w : Bool) (po : OrderRequest → Except Unit OrderResponse) :
    (isPlaced (on_candle s t c w po).2 = true →
      t ∉ s.orders_placed ∧
      (on_candle s t c w po).1.orders_placed = s.orders_placed ++ [t]) ∧
    (isPlaced (on_candle s t c w po).2 = false →
      (on_candle s t c w po).1.orders_placed = s.orders_placed) := by
  rcases hw : is_warmup_complete s w with ⟨s1, b⟩
  have hs1 : s1.orders_placed = s.orders_placed := by
    have h := (is_warmup_complete_fields s w).1
    rw [hw] at h
    exact h
  cases b
  · simp only [on_candle, hw]
    exact ⟨fun h => absurd h (by simp [isPlaced]), fun _ => hs1⟩
  · simp only [on_candle, hw]
    by_cases hmem : t ∈ s1.orders_placed
    · simp only [if_pos hmem]
      exact ⟨fun h => absurd h (by simp [isPlaced]), fun _ => hs1⟩
    · simp only [if_neg hmem]
      by_cases hq : calculate_quantity s1 (pyRound2 (c.low * (1 - ENTRY_OFFSET_PCT))) <
          MIN_QUANTITY
      · simp only [if_pos hq]
        exact ⟨fun h => absurd h (by simp [isPlaced]), fun _ => hs1⟩
      · simp only [if_neg hq]
        split
        · exact ⟨fun h => absurd h (by simp [isPlaced]), fun _ => hs1⟩
        · refine ⟨fun _ => ⟨hs1 ▸ hmem, ?_⟩, fun h => by simp [isPlaced] at h⟩
          have hmem' : t ∉ s.orders_placed := hs1 ▸ hmem
          simp only [setInsert, hs1, if_neg hmem']

theorem run_candles_cons (s : EarningStrategyState) (e : CandleEvent)
    (es : List CandleEvent) :
    run_candles s (e :: es) =
      ((run_candles (on_candle s e.ticker e.candle e.now_past_warmup e.place_order).1 es).1,
        (e.ticker, (on_candle s e.ticker e.candle e.now_past_warmup e.place_order).2) ::
          (run_candles (on_candle s e.ticker e.candle e.now_past_warmup e.place_order).1 es).2) := by
  rcases h : on_candle s e.ticker e.candle e.now_past_warmup e.place_order with ⟨s', o⟩
  rw [run_candles, h]

theorem countPlaced_cons (sym t : String) (o : CandleOutcome)
    (rest : List (String × CandleOutcome)) :
    countPlaced sym ((t, o) :: rest) =
      (if (t == sym && isPlaced o) = true then 1 else 0) + countPlaced sym rest := by
  by_cases h : (t == sym && isPlaced o) = true <;>
    simp [countPlaced, List.filter_cons, h, Nat.add_comm]

theorem run_candles_orders (s : EarningStrategyState) (events : List CandleEvent)
    (sym : String) :
    (sym ∈ s.orders_placed →
      countPlaced sym (run_candles s events).2 = 0 ∧
      sym ∈ (run_candles s events).1.orders_placed) ∧
    (sym ∉ s.orders_placed →
      countPlaced sym (run_candles s events).2 ≤ 1 ∧
      (sym ∈ (run_candles s events).1.orders_placed ↔
        countPlaced sym (run_candles s events).2 = 1)) := by
  induction events generalizing s with
  | nil =>
    refine ⟨fun h => ⟨rfl, h⟩, fun h => ⟨Nat.zero_le 1, ?_⟩⟩
    simp only [run_candles, countPlaced, List.filter_nil, List.length_nil]
    exact ⟨fun hm => absurd hm h, fun h0 => absurd h0 (by omega)⟩
  | cons e es ih =>
    obtain ⟨hplaced, hnot⟩ :=
      on_candle_orders s e.ticker e.candle e.now_past_warmup e.place_order
    rw [run_candles_cons]
    simp only [countPlaced_cons]
    cases hP : isPlaced (on_candle s e.ticker e.candle e.now_past_warmup e.place_order).2 with
    | false =>
      have horders := hnot hP
      constructor
      · intro hmem
        have h := (ih _).1 (horders ▸ hmem)
        simp [hP, h.1, h.2]
      · intro hmem
        have h := (ih _).2 (horders ▸ hmem)
        simp [hP, h.1, h.2]
    | true =>
      obtain ⟨htnot, horders⟩ := hplaced hP
      constructor
      · intro hmem
        have hne : (e.ticker == sym) = false := by
          simp only [beq_eq_false_iff_ne, ne_eq]
          rintro rfl
          exact htnot hmem
        have h := (ih (on_candle s e.ticker e.candle e.now_past_warmup e.place_order).1).1
          (by rw [horders]; exact List.mem_append.mpr (.inl hmem))
        simp [hne, h.1, h.2]
      · intro hmem
        by_cases hts : e.ticker = sym
        · subst hts
          have h := (ih (on_candle s e.ticker e.candle e.now_past_warmup e.place_order).1).1
            (by rw [horders]; exact List.mem_append.mpr (.inr (List.mem_singleton.mpr rfl)))
          simp [hP, h.1, h.2, horders]
        · have hne : (e.ticker == sym) = false := by simpa using hts
          have h := (ih (on_candle s e.ticker e.candle e.now_past_warmup e.place_order).1).2
            (by rw [horders]; simp; tauto)
          simp [hne, h.1, h.2]

/-- C1: starting a session with an empty already-ordered set, `on_candle`
places at most one successful order per symbol; a symbol is in the
ordered set at the end of the session exactly when one `place_order` call
for it returned (a confirmed success — the broker raises on failure, and
an exception leaves the symbol untagged), and once tagged every later
candle for it produces no further order. -/
theorem C1_one_order_per_symbol (s0 : EarningStrategyState)
    (h0 : s0.orders_placed = []) (events : List CandleEvent) (sym : String) :
    countPlaced sym (run_candles s0 events).2 ≤ 1 ∧
    (sym ∈ (run_candles s0 events).1.orders_placed ↔
      countPlaced sym (run_candles s0 events).2 = 1) :=
  (run_candles_orders s0 events sym).2 (by simp [h0])

/-- Concrete session witness: a fresh strategy fed two closed candles for
the same symbol places at most one order for it. -/
theorem C1_one_order_per_symbol_witness :
    countPlaced "X"
      (run_candles strategyInit
        [⟨"X", ⟨101, 102, 100, 101, 5, 0, .MINUTE⟩, true,
            fun _ => .ok ⟨"1", .SUBMITTED⟩⟩,
          ⟨"X", ⟨102, 103, 101, 102, 5, 300, .MINUTE⟩, true,
            fun _ => .ok ⟨"2", .SUBMITTED⟩⟩]).2 ≤ 1 ∧
    ("X" ∈ (run_candles strategyInit
        [⟨"X", ⟨101, 102, 100, 101, 5, 0, .MINUTE⟩, true,
            fun _ => .ok ⟨"1", .SUBMITTED⟩⟩,
          ⟨"X", ⟨102, 103, 101, 102, 5, 300, .MINUTE⟩, true,
            fun _ => .ok ⟨"2", .SUBMITTED⟩⟩]).1.orders_placed ↔
      countPlaced "X"
        (run_candles strategyInit
          [⟨"X", ⟨101, 102, 100, 101, 5, 0, .MINUTE⟩, true,
              fun _ => .ok ⟨"1", .SUBMITTED⟩⟩,
            ⟨"X", ⟨102, 103, 101, 102, 5, 300, .MINUTE⟩, true,
              fun _ => .ok ⟨"2", .SUBMITTED⟩⟩]).2 = 1) :=
  C1_one_order_per_symbol strategyInit rfl _ "X"

/-! ## C2 — order computation -/

/-- C2: on a first-eligible closed candle (warm-up passed, symbol
untagged, non-negative allocation, positive entry price), `on_candle`
computes `entry = round(low * 0.99, 2)`, `stop = round(entry * 0.96, 2)`,
`take = round(entry * 1.08, 2)` and `quantity = ⌊allocation / entry⌋`
(the `buildOrderRequest` fields); when `quantity < 1` it skips, leaving
the symbol untagged, and otherwise it submits exactly that bracket
request, tagging the symbol only if the call returns. -/
theorem C2_order_computation (s : EarningStrategyState) (ticker : String)
    (candle : CandleStick) (npw : Bool)
    (po : OrderRequest → Except Unit OrderResponse)
    (hwarm : (is_warmup_complete s npw).2 = true)
    (hnew : ticker ∉ s.orders_placed)
    (hbp : 0 ≤ s.buying_power_per_ticker)
    (hentry : 0 < pyRound2 (candle.low * (1 - ENTRY_OFFSET_PCT))) :
    calculate_quantity s (pyRound2 (candle.low * (1 - ENTRY_OFFSET_PCT))) =
      ⌊s.buying_power_per_ticker / pyRound2 (candle.low * (1 - ENTRY_OFFSET_PCT))⌋ ∧
    (calculate_quantity s (pyRound2 (candle.low * (1 - ENTRY_OFFSET_PCT))) < MIN_QUANTITY →
      on_candle s ticker candle npw po =
        ((is_warmup_complete s npw).1, .skipped_quantity)) ∧
    (MIN_QUANTITY ≤ calculate_quantity s (pyRound2 (candle.low * (1 - ENTRY_OFFSET_PCT))) →
      (on_candle s ticker candle npw po).2 =
        (match po (buildOrderRequest s ticker candle) with
         | .ok _ => .order_placed (buildOrderRequest s ticker candle)
         | .error _ => .order_error)) := by
  rcases hw : is_warmup_complete s npw with ⟨s1, b⟩
  have hfields := is_warmup_complete_fields s npw
  rw [hw] at hfields hwarm
  subst hwarm
  obtain ⟨hord, hbpf⟩ := hfields
  have hcq : calculate_quantity s1 (pyRound2 (candle.low * (1 - ENTRY_OFFSET_PCT))) =
      calculate_quantity s (pyRound2 (candle.low * (1 - ENTRY_OFFSET_PCT))) := by
    rw [calculate_quantity, calculate_quantity, hbpf]
  have hmem : ticker ∉ s1.orders_placed := hord ▸ hnew
  refine ⟨?_, ?_, ?_⟩
  · rw [calculate_quantity, if_neg (not_le.mpr hentry),
      pyInt_eq_floor _ (div_nonneg hbp (le_of_lt hentry))]
  · intro hlt
    rw [← hcq] at hlt
    simp only [on_candle, hw, if_neg hmem, if_pos hlt]
  · intro hge
    rw [← hcq] at hge
    simp only [on_candle, hw, if_neg hmem, buildOrderRequest, hcq]
    rw [if_neg (not_lt.mpr (hcq ▸ hge))]
    split <;> simp_all

/-- Concrete instance of the claim's numbers: a first-eligible candle
with `low = 100.00` and a $1000 per-symbol allocation yields entry 99.00,
stop 95.04, take 106.92, quantity 10 and a placed order; with a $50
allocation the quantity floors to 0 < 1 and the candle is skipped with
the symbol untagged. -/
theorem C2_order_computation_witness :
    calculate_quantity (⟨[], false, [], true, [], 1000, 0⟩ : EarningStrategyState)
      (pyRound2 ((100 : ℚ) * (1 - ENTRY_OFFSET_PCT))) = 10 ∧
    (on_candle (⟨[], false, [], true, [], 1000, 0⟩ : EarningStrategyState) "X"
        (⟨101, 102, 100, 101, 5, 0, .MINUTE⟩ : CandleStick) true
        (fun _ => .ok ⟨"1", .SUBMITTED⟩)).2 =
      .order_placed ⟨"X", 10, .BUY, .LIMIT, some 99, none, some (9504 / 100),
        some (10692 / 100)⟩ ∧
    on_candle (⟨[], false, [], true, [], 50, 0⟩ : EarningStrategyState) "X"
        (⟨101, 102, 100, 101, 5, 0, .MINUTE⟩ : CandleStick) true
        (fun _ => .ok ⟨"1", .SUBMITTED⟩) =
      ((⟨[], false, [], true, [], 50, 0⟩ : EarningStrategyState), .skipped_quantity) := by
  have hentry : pyRound2 ((100 : ℚ) * (1 - ENTRY_OFFSET_PCT)) = 99 := by
    norm_num [pyRound2, ENTRY_OFFSET_PCT]
  have h1000 := C2_order_computation (⟨[], false, [], true, [], 1000, 0⟩ : EarningStrategyState)
    "X" (⟨101, 102, 100, 101, 5, 0, .MINUTE⟩ : CandleStick) true
    (fun _ => .ok ⟨"1", .SUBMITTED⟩) rfl (by simp) (by norm_num) (by rw [hentry]; norm_num)
  have h50 := C2_order_computation (⟨[], false, [], true, [], 50, 0⟩ : EarningStrategyState)
    "X" (⟨101, 102, 100, 101, 5, 0, .MINUTE⟩ : CandleStick) true
    (fun _ => .ok ⟨"1", .SUBMITTED⟩) rfl (by simp) (by norm_num) (by rw [hentry]; norm_num)
  dsimp only at h1000 h50
  have hq1000 : calculate_quantity (⟨[], false, [], true, [], 1000, 0⟩ : EarningStrategyState)
      (pyRound2 ((100 : ℚ) * (1 - ENTRY_OFFSET_PCT))) = 10 := by
    rw [h1000.1, hentry]
    norm_num
  have hq50 : calculate_quantity (⟨[], false, [], true, [], 50, 0⟩ : EarningStrategyState)
      (pyRound2 ((100 : ℚ) * (1 - ENTRY_OFFSET_PCT))) = 0 := by
    rw [h50.1, hentry]
    norm_num
  refine ⟨hq1000, ?_, ?_⟩
  · have houtcome := h1000.2.2 (by rw [hq1000]; norm_num [MIN_QUANTITY])
    rw [houtcome]
    have hreq : buildOrderRequest (⟨[], false, [], true, [], 1000, 0⟩ : EarningStrategyState)
        "X" (⟨101, 102, 100, 101, 5, 0, .MINUTE⟩ : CandleStick) =
        ⟨"X", 10, .BUY, .LIMIT, some 99, none, some (9504 / 100), some (10692 / 100)⟩ := by
      rw [buildOrderRequest, hq1000, hentry]
      simp only [OrderRequest.mk.injEq, Option.some.injEq]
      norm_num [pyRound2, STOP_LOSS_PCT, TAKE_PROFIT_PCT]
    rw [hreq]
  · have houtcome := h50.2.1 (by rw [hq50]; norm_num [MIN_QUANTITY])
    rw [houtcome]
    simp [is_warmup_complete]

/-! ## C10 — implicit division guard -/

/-- C10: for every entry price ≤ 0 (as arises from a candle low of 0,
itself possible because decoded tick prices default to 0),
`_calculate_quantity` returns 0 without dividing, so `on_candle` places
no order, raises no division error (the `entry_price <= 0` guard comes
before the division) and leaves the symbol untagged. -/
theorem C10_division_guard (s : EarningStrategyState) (ticker : String)
    (candle : CandleStick) (npw : Bool)
    (po : OrderRequest → Except Unit OrderResponse) (entry : ℚ)
    (h0 : entry ≤ 0)
    (hc : pyRound2 (candle.low * (1 - ENTRY_OFFSET_PCT)) ≤ 0) :
    calculate_quantity s entry = 0 ∧
    isPlaced (on_candle s ticker candle npw po).2 = false ∧
    (on_candle s ticker candle npw po).1.orders_placed = s.orders_placed := by
  have hfalse : isPlaced (on_candle s ticker candle npw po).2 = false := by
    rcases hw : is_warmup_complete s npw with ⟨s1, b⟩
    cases b
    · simp [on_candle, hw, isPlaced]
    · simp only [on_candle, hw]
      by_cases hmem : ticker ∈ s1.orders_placed
      · simp [if_pos hmem, isPlaced]
      · have hq : calculate_quantity s1 (pyRound2 (candle.low * (1 - ENTRY_OFFSET_PCT))) <
            MIN_QUANTITY := by
          rw [calculate_quantity, if_pos hc]
          norm_num [MIN_QUANTITY]
        simp [if_neg hmem, if_pos hq, isPlaced]
  exact ⟨by rw [calculate_quantity, if_pos h0], hfalse,
    (on_candle_orders s ticker candle npw po).2 hfalse⟩

/-- Concrete instance: a candle with `low = 0` gives entry 0, quantity 0,
no order and an unchanged (empty) ordered set. -/
theorem C10_division_guard_witness :
    calculate_quantity strategyInit 0 = 0 ∧
    isPlaced (on_candle strategyInit "X"
      (⟨1, 1, 0, 1, 5, 0, .MINUTE⟩ : CandleStick) true
      (fun _ => .ok ⟨"1", .SUBMITTED⟩)).2 = false ∧
    (on_candle strategyInit "X"
      (⟨1, 1, 0, 1, 5, 0, .MINUTE⟩ : CandleStick) true
      (fun _ => .ok ⟨"1", .SUBMITTED⟩)).1.orders_placed = strategyInit.orders_placed :=
  C10_division_guard strategyInit "X" (⟨1, 1, 0, 1, 5, 0, .MINUTE⟩ : CandleStick) true
    (fun _ => .ok ⟨"1", .SUBMITTED⟩) 0 (by norm_num)
    (by norm_num [pyRound2, ENTRY_OFFSET_PCT])

/-! ## C4 — closed-candle invariant -/

theorem stateInvariant_create (d : PricingData) (h : 0 ≤ d.last_size) :
    StateInvariant (create_candle_state d) :=
  ⟨le_refl _, le_refl _, le_refl _, le_refl _, h⟩

theorem stateInvariant_update (st : CandleState) (d : PricingData)
    (hst : StateInvariant st) (h : 0 ≤ d.last_size) :
    StateInvariant (update_candle_state st d) := by
  obtain ⟨h1, h2, h3, h4, h5⟩ := hst
  exact ⟨le_trans (min_le_left _ _) h1, min_le_right _ _,
    le_trans h3 (le_max_left _ _), le_max_right _ _, add_nonneg h5 h⟩

theorem candleInvariant_finalize (st : CandleState) (h : StateInvariant st) :
    CandleInvariant (finalize_candle st) := by
  obtain ⟨h1, h2, h3, h4, h5⟩ := h
  exact ⟨le_min h1 h2, max_le h3 h4, h5⟩

theorem mem_setCandle (l : List (String × CandleState)) (k : String)
    (st : CandleState) (e : String × CandleState) (he : e ∈ setCandle l k st) :
    e ∈ l ∨ e = (k, st) := by
  rw [setCandle] at he
  split at he
  · rcases List.mem_map.mp he with ⟨p, hp, hpe⟩
    by_cases hpk : (p.1 == k) = true
    · right
      rw [← hpe, if_pos hpk]
    · left
      rw [← hpe, if_neg hpk]
      exact hp
  · rcases List.mem_append.mp he with h | h
    · exact .inl h
    · right
      simpa using h

theorem lookupCandle_mem (l : List (String × CandleState)) (k : String)
    (st : CandleState) (h : lookupCandle l k = some st) : ∃ p ∈ l, p.2 = st := by
  rw [lookupCandle] at h
  rcases hf : l.find? (fun p => p.1 == k) with _ | p
  · rw [hf] at h
    simp at h
  · rw [hf] at h
    simp at h
    exact ⟨p, List.mem_of_find?_eq_some hf, h⟩

theorem on_tick_inv (s : EarningStrategyState) (d : PricingData)
    (hs : ∀ e ∈ s.building_candles, StateInvariant e.2)
    (hd : 0 ≤ d.price ∧ 0 ≤ d.last_size) :
    (∀ e ∈ (on_tick s d).1.building_candles, StateInvariant e.2) ∧
    (∀ c, (on_tick s d).2 = some c → CandleInvariant c.2) := by
  rcases hl : lookupCandle s.building_candles (pyUpper d.id) with _ | st
  · simp only [on_tick, hl]
    refine ⟨fun e he => ?_, fun c hc => Option.noConfusion hc⟩
    rcases mem_setCandle _ _ _ _ he with h | rfl
    · exact hs e h
    · exact stateInvariant_create d hd.2
  · obtain ⟨p, hp, hpst⟩ := lookupCandle_mem _ _ _ hl
    have hstinv : StateInvariant st := hpst ▸ hs p hp
    simp only [on_tick, hl]
    by_cases helapsed : d.time - st.start_time ≥ CANDLE_TICKS
    · simp only [if_pos helapsed]
      refine ⟨fun e he => ?_, fun c hc => ?_⟩
      · rcases mem_setCandle _ _ _ _ he with h | rfl
        · exact hs e h
        · exact stateInvariant_create d hd.2
      · have hc' : (pyUpper d.id, finalize_candle st) = c := by
          simpa using hc
        rw [← hc']
        exact candleInvariant_finalize st hstinv
    · simp only [if_neg helapsed]
      refine ⟨fun e he => ?_, fun c hc => Option.noConfusion hc⟩
      rcases mem_setCandle _ _ _ _ he with h | rfl
      · exact hs e h
      · exact stateInvariant_update st d hstinv hd.2

theorem run_ticks_inv (s : EarningStrategyState) (ticks : List PricingData)
    (hs : ∀ e ∈ s.building_candles, StateInvariant e.2)
    (hd : ∀ d ∈ ticks, 0 ≤ d.price ∧ 0 ≤ d.last_size) :
    ∀ c ∈ (run_ticks s ticks).2, CandleInvariant c.2 := by
  induction ticks generalizing s with
  | nil => simp [run_ticks]
  | cons d ds ih =>
    have hthis := on_tick_inv s d hs (hd d (by simp))
    rcases ho : on_tick s d with ⟨s', oc⟩
    rw [ho] at hthis
    cases oc with
    | none =>
      rw [run_ticks, ho]
      exact ih s' hthis.1 (fun d' hd' => hd d' (by simp [hd']))
    | some c =>
      rw [run_ticks, ho]
      have hih := ih s' hthis.1 (fun d' hd' => hd d' (by simp [hd']))
      rcases hr : run_ticks s' ds with ⟨s'', cs⟩
      rw [hr] at hih
      dsimp only
      rw [hr]
      intro c' hc'
      rcases List.mem_cons.mp hc' with rfl | hmem
      · exact hthis.2 c' rfl
      · exact hih c' hmem

/-- C4: every candle emitted by the tick-accumulating `on_tick` (first
tick seeds the state; later ticks update high to the max, low to the min,
close to the latest price and add `last_size` to the volume) satisfies
`low ≤ min(open, close) ≤ max(open, close) ≤ high` and `volume ≥ 0`,
given that all tick prices and sizes are non-negative. -/
theorem C4_candle_invariant (ticks : List PricingData)
    (h : ∀ d ∈ ticks, 0 ≤ d.price ∧ 0 ≤ d.last_size) :
    ∀ c ∈ (run_ticks strategyInit ticks).2, CandleInvariant c.2 :=
  run_ticks_inv strategyInit ticks (by simp [strategyInit]) h

/-- Concrete instance: two non-negative ticks for one symbol, one second
apart, close a candle and every emitted candle satisfies the invariant. -/
theorem C4_candle_invariant_witness :
    (∀ d ∈ [(⟨"AAPL", 5, 0, 2⟩ : PricingData), ⟨"AAPL", 7, 1, 3⟩],
      0 ≤ d.price ∧ 0 ≤ d.last_size) ∧
    ∀ c ∈ (run_ticks strategyInit
        [(⟨"AAPL", 5, 0, 2⟩ : PricingData), ⟨"AAPL", 7, 1, 3⟩]).2,
      CandleInvariant c.2 := by
  have hd : ∀ d ∈ [(⟨"AAPL", 5, 0, 2⟩ : PricingData), ⟨"AAPL", 7, 1, 3⟩],
      0 ≤ d.price ∧ 0 ≤ d.last_size := by
    intro d hd
    rcases List.mem_cons.mp hd with rfl | hd
    · exact ⟨by norm_num, by norm_num⟩
    · rcases List.mem_cons.mp hd with rfl | hd
      · exact ⟨by norm_num, by norm_num⟩
      · simp at hd
  exact ⟨hd, C4_candle_invariant _ hd⟩

end FinanceMaker
